import Mathlib

/-!
Verification of the muse_spotify_recorder core: packet decoding
(muse_parser.py), EEG frame synchronization (custom_muse_streamer.py),
LSL chunk timestamping (muse_lsl_streamer.py), pre-roll admission
(lsl_utils.py), and teardown idempotence (muse_bluetooth.py,
custom_muse_streamer.py).

Machine integers are modelled as Nat/Int; bytes are Nat values below 256;
floating point calibration factors are modelled as exact rationals
(the source literals are exact decimal fractions).
-/

namespace Muse

/-- EEG conversion factor from muse_parser.py: 0.48828125 microvolts per unit. -/
def EEG_SCALE_FACTOR : ℚ := 48828125 / 100000000

/-- Accelerometer conversion factor from muse_parser.py: 0.0000610352 g per unit. -/
def ACC_SCALE_FACTOR : ℚ := 610352 / 10000000000

/-- Gyroscope conversion factor from muse_parser.py: 0.0074768 deg/s per unit. -/
def GYRO_SCALE_FACTOR : ℚ := 74768 / 10000000

/-- A byte buffer interpreted as one big natural number, most significant
byte first.  This models the bit stream that bitstring.Bits(bytes=data)
exposes to the unpack pattern. -/
def bytesToNat (data : List Nat) : Nat :=
  data.foldl (fun acc b => acc * 256 + b) 0

/-- Read n consecutive w-bit unsigned fields from a (w*n)-bit value M,
most significant field first.  Models bitstring unpacking of consecutive
uint:w fields. -/
def unpackFields (w : Nat) : Nat → Nat → List Nat
  | _, 0 => []
  | M, n + 1 => (M / 2 ^ (w * n)) % 2 ^ w :: unpackFields w (M % 2 ^ (w * n)) n

/-- Two's-complement reading of a 16-bit unsigned field, as done by the
int:16 bitstring pattern. -/
def toSigned16 (v : Nat) : ℤ :=
  if v < 32768 then (v : ℤ) else (v : ℤ) - 65536

/-- numpy reshape((3, 3), order='F') of a flat 9-element vector: entry
(i, j) of the result is flat[i + 3*j]. -/
def reshapeF33 (l : List ℤ) : List (List ℤ) :=
  (List.range 3).map (fun i => (List.range 3).map (fun j => l.getD (i + 3 * j) 0))

/-- parse_eeg_packet from muse_parser.py: a 20-byte packet is a 16-bit
unsigned packet index followed by 12 packed 12-bit unsigned samples; each
raw sample r is calibrated to EEG_SCALE_FACTOR * (r - 2048) microvolts.
Any other length raises ValueError, modelled as Except.error. -/
def parse_eeg_packet (data : List Nat) : Except String (Nat × List ℚ) :=
  if data.length ≠ 20 then
    Except.error ("EEG packet must be 20 bytes, got " ++ toString data.length)
  else
    let n := bytesToNat data
    let packet_index := n / 2 ^ 144
    let raw_samples := unpackFields 12 (n % 2 ^ 144) 12
    Except.ok (packet_index, raw_samples.map (fun r => EEG_SCALE_FACTOR * ((r : ℚ) - 2048)))

/-- parse_acc_packet from muse_parser.py: a 20-byte packet is a 16-bit
unsigned packet index followed by 9 signed 16-bit values, reshaped in
column-major (Fortran) order into 3 samples of [x, y, z] and scaled to g. -/
def parse_acc_packet (data : List Nat) : Except String (Nat × List (List ℚ)) :=
  if data.length ≠ 20 then
    Except.error ("Accelerometer packet must be 20 bytes, got " ++ toString data.length)
  else
    let n := bytesToNat data
    let packet_index := n / 2 ^ 144
    let raw_data := (unpackFields 16 (n % 2 ^ 144) 9).map toSigned16
    let samples := reshapeF33 raw_data
    Except.ok (packet_index, samples.map (fun row => row.map (fun v => (v : ℚ) * ACC_SCALE_FACTOR)))

/-- parse_gyro_packet from muse_parser.py: identical layout to the
accelerometer packet, scaled to deg/s. -/
def parse_gyro_packet (data : List Nat) : Except String (Nat × List (List ℚ)) :=
  if data.length ≠ 20 then
    Except.error ("Gyroscope packet must be 20 bytes, got " ++ toString data.length)
  else
    let n := bytesToNat data
    let packet_index := n / 2 ^ 144
    let raw_data := (unpackFields 16 (n % 2 ^ 144) 9).map toSigned16
    let samples := reshapeF33 raw_data
    Except.ok (packet_index, samples.map (fun row => row.map (fun v => (v : ℚ) * GYRO_SCALE_FACTOR)))

/-- Pack a list of w-bit unsigned fields into one natural number, most
significant field first.  Used by the spec-layout packet constructors for
round-trip verification. -/
def packFields (w : Nat) : List Nat → Nat
  | [] => 0
  | v :: vs => v * 2 ^ (w * vs.length) + packFields w vs

/-- Serialize the low len bytes of a natural number, most significant
byte first. -/
def natToBytes : Nat → Nat → List Nat
  | _, 0 => []
  | n, len + 1 => natToBytes (n / 256) len ++ [n % 256]

/-- Construct a 20-byte EEG packet with the documented layout (16-bit
sequence index, then 12 packed 12-bit raw samples), for round-trip
verification of the decoder. -/
def eegEncode (seq : Nat) (raws : List Nat) : List Nat :=
  natToBytes (seq * 2 ^ 144 + packFields 12 raws) 20

/-- Two's-complement encoding of an Int into a 16-bit unsigned field. -/
def toUnsigned16 (z : ℤ) : Nat := (z % 65536).toNat

/-- Construct a 20-byte ACC/GYRO packet with the documented layout (16-bit
sequence index, then 9 signed 16-bit values), for round-trip verification. -/
def imuEncode (seq : Nat) (vals : List ℤ) : List Nat :=
  natToBytes (seq * 2 ^ 144 + packFields 16 (vals.map toUnsigned16)) 20

/-- The four fixed EEG channel names of custom_muse_streamer.py. -/
inductive Channel
  | TP9
  | AF7
  | AF8
  | TP10
deriving DecidableEq

/-- One entry of the _eeg_buffer dict: the partial mapping from channel
name to that channel's 12-sample vector for one packet index. -/
structure Pending where
  tp9 : Option (List ℚ)
  af7 : Option (List ℚ)
  af8 : Option (List ℚ)
  tp10 : Option (List ℚ)
deriving DecidableEq

def Pending.empty : Pending := ⟨none, none, none, none⟩

/-- dict assignment buffer[packet_index][channel] = samples for one channel. -/
def Pending.set (p : Pending) : Channel → List ℚ → Pending
  | Channel.TP9, s => { p with tp9 := some s }
  | Channel.AF7, s => { p with af7 := some s }
  | Channel.AF8, s => { p with af8 := some s }
  | Channel.TP10, s => { p with tp10 := some s }

/-- len(buffer[packet_index]): the number of channel keys present. -/
def Pending.numChannels (p : Pending) : Nat :=
  [p.tp9, p.af7, p.af8, p.tp10].countP Option.isSome

/-- State of CustomMuseStreamer EEG synchronization: the _eeg_buffer and
_eeg_timestamps dicts (modelled as association lists in insertion order)
plus the record of frames pushed to the LSL streamer.  Each emitted entry
keeps the packet index of the pending entry that produced the push. -/
structure SyncState where
  buffer : List (Nat × Pending)
  timestamps : List (Nat × ℚ)
  emitted : List (Nat × List (List ℚ) × ℚ)
deriving DecidableEq

def initState : SyncState := ⟨[], [], []⟩

/-- dict key lookup in _eeg_buffer. -/
def lookupPending : List (Nat × Pending) → Nat → Option Pending
  | [], _ => none
  | q :: rest, i => if q.1 = i then some q.2 else lookupPending rest i

/-- dict key lookup in _eeg_timestamps. -/
def lookupTime : List (Nat × ℚ) → Nat → Option ℚ
  | [], _ => none
  | q :: rest, i => if q.1 = i then some q.2 else lookupTime rest i

/-- Update the entry of key i with one channel's samples. -/
def setChannel (buf : List (Nat × Pending)) (i : Nat) (ch : Channel) (s : List ℚ) :
    List (Nat × Pending) :=
  buf.map (fun q => if q.1 = i then (q.1, q.2.set ch s) else q)

/-- np.column_stack of the four 12-sample channel vectors: 12 rows of
[tp9, af7, af8, tp10]. -/
def columnStack4 : List ℚ → List ℚ → List ℚ → List ℚ → List (List ℚ)
  | a :: as, b :: bs, c :: cs, d :: ds => [a, b, c, d] :: columnStack4 as bs cs ds
  | _, _, _, _ => []

def bufKeys (buf : List (Nat × Pending)) : List Nat := buf.map Prod.fst

/-- The buffer after the two opening statements of _process_eeg_packet:
create an empty entry if the key is new, then store the channel samples. -/
def insertStage (st : SyncState) (i : Nat) (ch : Channel) (s : List ℚ) :
    List (Nat × Pending) :=
  setChannel
    (if (lookupPending st.buffer i).isSome then st.buffer
     else st.buffer ++ [(i, Pending.empty)]) i ch s

/-- The timestamps dict after the same opening statements: stamp a new key
with the clock read at first arrival. -/
def timesStage (st : SyncState) (i : Nat) (now : ℚ) : List (Nat × ℚ) :=
  if (lookupPending st.buffer i).isSome then st.timestamps
  else st.timestamps ++ [(i, now)]

/-- The cleanup in _process_eeg_packet: when more than 10 keys exist,
delete the keys in sorted(keys)[:-10] from both dicts. -/
def evictOld (buf : List (Nat × Pending)) (ts : List (Nat × ℚ)) :
    List (Nat × Pending) × List (Nat × ℚ) :=
  if buf.length > 10 then
    let oldest := (List.insertionSort (fun a b => a ≤ b) (bufKeys buf)).take (buf.length - 10)
    (buf.filter (fun q => decide (q.1 ∉ oldest)), ts.filter (fun q => decide (q.1 ∉ oldest)))
  else (buf, ts)

/-- CustomMuseStreamer._process_eeg_packet: store the channel samples under
the packet index (stamping new keys with the current clock read now); if
all 4 channels are then present, push the column-stacked frame with the
first-arrival timestamp and run the cleanup.  The completed entry itself
is not deleted. -/
def processEeg (st : SyncState) (ch : Channel) (packet_index : Nat) (samples : List ℚ)
    (now : ℚ) : SyncState :=
  let buffer1 := insertStage st packet_index ch samples
  let timestamps1 := timesStage st packet_index now
  let p := (lookupPending buffer1 packet_index).getD Pending.empty
  if p.numChannels = 4 then
    let combined := columnStack4 (p.tp9.getD []) (p.af7.getD []) (p.af8.getD []) (p.tp10.getD [])
    let timestamp := (lookupTime timestamps1 packet_index).getD 0
    let pr := evictOld buffer1 timestamps1
    { buffer := pr.1, timestamps := pr.2,
      emitted := st.emitted ++ [(packet_index, combined, timestamp)] }
  else
    { buffer := buffer1, timestamps := timestamps1, emitted := st.emitted }

/-- An _on_eeg_*_data BLE callback: parse the raw payload and feed the
synchronizer; any parse error is caught and leaves all state untouched. -/
def onEegNotification (st : SyncState) (ch : Channel) (data : List Nat) (now : ℚ) :
    SyncState :=
  match parse_eeg_packet data with
  | Except.ok pr => processEeg st ch pr.1 pr.2 now
  | Except.error _ => st

/-- Nominal EEG sample rate from muse_constants.py. -/
def EEG_SAMPLE_RATE : ℚ := 256

/-- The enumerate loop of push_eeg_chunk: sample i gets
timestamp + i * time_per_sample. -/
def enumPush (timestamp time_per_sample : ℚ) : List (List ℚ) → Nat → List (List ℚ × ℚ)
  | [], _ => []
  | sample :: rest, i =>
    (sample, timestamp + (i : ℚ) * time_per_sample) :: enumPush timestamp time_per_sample rest (i + 1)

/-- MuseLSLStreamer.push_eeg_chunk: raises if streams are missing; with a
block of more than one sample, pushes each sample at
timestamp + i / EEG_SAMPLE_RATE; otherwise pushes the sole sample at the
unmodified timestamp (an empty block raises an index error).  A missing
timestamp argument defaults to the current clock read now. -/
def push_eeg_chunk (streams_created : Bool) (samples : List (List ℚ))
    (timestampOpt : Option ℚ) (now : ℚ) : Except String (List (List ℚ × ℚ)) :=
  if streams_created = false then
    Except.error "LSL streams not created. Call create_streams() first."
  else
    let timestamp := timestampOpt.getD now
    if samples.length > 1 then
      Except.ok (enumPush timestamp (1 / EEG_SAMPLE_RATE) samples 0)
    else
      match samples with
      | [] => Except.error "list index out of range"
      | s :: _ => Except.ok [(s, timestamp)]

/-- The per-sample body of recording_loop in lsl_utils.py: a sample whose
relative time is below -pre_roll is skipped (no row, index unchanged);
otherwise the row [idx, tstamp, rel_t, channels...] is written and the
per-stream index advances. -/
def recordSample (play_lsl pre_roll : ℚ) (idx : Nat) (sample : List ℚ) (tstamp : ℚ) :
    Option (List ℚ) × Nat :=
  let rel_t := tstamp - play_lsl
  if rel_t < -pre_roll then (none, idx)
  else (some ((idx : ℚ) :: tstamp :: rel_t :: sample), idx + 1)

/-- The externally observable resource-release actions of the teardown
paths in muse_bluetooth.py and custom_muse_streamer.py. -/
inductive TeardownAct
  | stopStream
  | stopNotifyTP9
  | stopNotifyAF7
  | stopNotifyAF8
  | stopNotifyTP10
  | stopNotifyACC
  | stopNotifyGYRO
  | closeLink
  | cancelKeepAlive
  | closeLsl
deriving DecidableEq

/-- MuseBLEClient state: the _connected and _streaming flags and whether
self.client is set (it is never reset to None by disconnect). -/
structure BLEState where
  connected : Bool
  streaming : Bool
  hasClient : Bool
deriving DecidableEq

/-- MuseBLEClient.disconnect: a no-op unless connected with a client;
otherwise stop streaming if active, unsubscribe the six characteristics,
close the link, and clear the flags. -/
def bleDisconnect (st : BLEState) : BLEState × List TeardownAct :=
  if st.connected = false ∨ st.hasClient = false then (st, [])
  else
    ({ st with connected := false, streaming := false },
      (if st.streaming then [TeardownAct.stopStream] else []) ++
      [TeardownAct.stopNotifyTP9, TeardownAct.stopNotifyAF7, TeardownAct.stopNotifyAF8,
       TeardownAct.stopNotifyTP10, TeardownAct.stopNotifyACC, TeardownAct.stopNotifyGYRO,
       TeardownAct.closeLink])

/-- MuseLSLStreamer.close_streams: a no-op when streams were never created,
otherwise drops the outlets. -/
def closeStreams (created : Bool) : Bool × List TeardownAct :=
  if created then (false, [TeardownAct.closeLsl]) else (false, [])

/-- CustomMuseStreamer state: the _running flag, whether a keep-alive task
exists, the BLE client state and the LSL streams-created flag. -/
structure StreamerState where
  running : Bool
  hasKeepAliveTask : Bool
  ble : BLEState
  streamsCreated : Bool
deriving DecidableEq

/-- CustomMuseStreamer.stop: returns immediately unless running; otherwise
cancels the keep-alive task, disconnects the BLE client and closes the LSL
streams. -/
def streamerStop (st : StreamerState) : StreamerState × List TeardownAct :=
  if st.running = false then (st, [])
  else
    let bleRes := bleDisconnect st.ble
    let lslRes := closeStreams st.streamsCreated
    ({ running := false, hasKeepAliveTask := st.hasKeepAliveTask,
       ble := bleRes.1, streamsCreated := lslRes.1 },
      (if st.hasKeepAliveTask then [TeardownAct.cancelKeepAlive] else []) ++
        bleRes.2 ++ lslRes.2)

/-- A fixed 12-sample channel vector used as concrete feed data. -/
def zeroSamples : List ℚ := List.replicate 12 0

/-- Distinct concrete sample vectors per channel, for attribution checks. -/
def chSample : Channel → List ℚ
  | Channel.TP9 => List.replicate 12 9
  | Channel.AF7 => List.replicate 12 7
  | Channel.AF8 => List.replicate 12 8
  | Channel.TP10 => List.replicate 12 10

/-- Feeding 15 distinct sequence indices, each with the TP9, AF7 and AF8
channels but never TP10 (each missing one channel), so that no frame ever
completes. -/
def c1runState : SyncState :=
  (List.range 15).foldl (fun st i =>
    processEeg (processEeg (processEeg st Channel.TP9 i zeroSamples 0)
      Channel.AF7 i zeroSamples 0) Channel.AF8 i zeroSamples 0) initState

/-- Feeding all 4 channels of sequence index 0 in the canonical order. -/
def c2runState : SyncState :=
  processEeg (processEeg (processEeg (processEeg initState Channel.TP9 0 zeroSamples 1)
    Channel.AF7 0 zeroSamples 2) Channel.AF8 0 zeroSamples 3) Channel.TP10 0 zeroSamples 4

/-- Feeding 3 of the 4 channels of sequence index 0: one sample away from
completion. -/
def threeFilledState : SyncState :=
  processEeg (processEeg (processEeg initState Channel.TP9 0 zeroSamples 1)
    Channel.AF7 0 zeroSamples 2) Channel.AF8 0 zeroSamples 3

/-- A pending entry with all 4 channels present. -/
def fullPending : Pending :=
  ⟨some zeroSamples, some zeroSamples, some zeroSamples, some zeroSamples⟩

/-- A synchronizer state in which index 5 has already completed and been
emitted, while its pending entry is still in the table. -/
def dupState : SyncState :=
  ⟨[(5, fullPending)], [(5, 3)],
   [(5, columnStack4 zeroSamples zeroSamples zeroSamples zeroSamples, 3)]⟩

/-- A 19-byte payload: one byte short of every modality's fixed length. -/
def badPacket : List Nat := List.replicate 19 0

/-- A BLE client state that is already disconnected (client object kept). -/
def disconnectedBLE : BLEState := ⟨false, false, true⟩

/-- A streamer in full flight: running, keep-alive task, connected, streaming. -/
def runningStreamer : StreamerState := ⟨true, true, ⟨true, true, true⟩, true⟩

theorem length_natToBytes (len : Nat) : ∀ n, (natToBytes n len).length = len := by
  induction len with
  | zero => intro n; rfl
  | succ k ih => intro n; simp [natToBytes, ih]

theorem bytesToNat_append (xs : List Nat) (b : Nat) :
    bytesToNat (xs ++ [b]) = bytesToNat xs * 256 + b := by
  simp [bytesToNat, List.foldl_append]

theorem bytesToNat_natToBytes (len : Nat) : ∀ n, bytesToNat (natToBytes n len) = n % 256 ^ len := by
  induction len with
  | zero => intro n; simp [natToBytes, bytesToNat, Nat.mod_one]
  | succ k ih =>
    intro n
    rw [natToBytes, bytesToNat_append, ih, pow_succ, mul_comm (256 ^ k) 256]
    have h := Nat.mod_mul (a := 256) (b := 256 ^ k) (x := n)
    omega

theorem packFields_lt (w : Nat) (vs : List Nat) (h : ∀ v ∈ vs, v < 2 ^ w) :
    packFields w vs < 2 ^ (w * vs.length) := by
  induction vs with
  | nil => simp [packFields]
  | cons v tl ih =>
    have hv : v < 2 ^ w := h v (by simp)
    have htl : packFields w tl < 2 ^ (w * tl.length) := ih (fun x hx => h x (by simp [hx]))
    simp only [packFields, List.length_cons]
    calc v * 2 ^ (w * tl.length) + packFields w tl
        < v * 2 ^ (w * tl.length) + 2 ^ (w * tl.length) := by omega
      _ = (v + 1) * 2 ^ (w * tl.length) := by ring
      _ ≤ 2 ^ w * 2 ^ (w * tl.length) := Nat.mul_le_mul (by omega) le_rfl
      _ = 2 ^ (w + w * tl.length) := (pow_add 2 w (w * tl.length)).symm
      _ = 2 ^ (w * (tl.length + 1)) := by rw [Nat.mul_succ, Nat.add_comm]

theorem unpackFields_packFields (w : Nat) (vs : List Nat) (h : ∀ v ∈ vs, v < 2 ^ w) :
    unpackFields w (packFields w vs) vs.length = vs := by
  induction vs with
  | nil => rfl
  | cons v tl ih =>
    have hv : v < 2 ^ w := h v (by simp)
    have htl : packFields w tl < 2 ^ (w * tl.length) :=
      packFields_lt w tl (fun x hx => h x (by simp [hx]))
    have hK : 0 < 2 ^ (w * tl.length) := pow_pos (by norm_num) _
    have hdiv : (v * 2 ^ (w * tl.length) + packFields w tl) / 2 ^ (w * tl.length) = v := by
      rw [Nat.add_comm, Nat.add_mul_div_right _ _ hK, Nat.div_eq_of_lt htl, Nat.zero_add]
    have hmod : (v * 2 ^ (w * tl.length) + packFields w tl) % 2 ^ (w * tl.length)
        = packFields w tl := by
      rw [Nat.add_comm, Nat.mul_comm, Nat.add_mul_mod_self_left, Nat.mod_eq_of_lt htl]
    simp only [packFields, List.length_cons, unpackFields]
    rw [hdiv, hmod, Nat.mod_eq_of_lt hv, ih (fun x hx => h x (by simp [hx]))]


theorem toSigned16_toUnsigned16 (z : ℤ) (h1 : -32768 ≤ z) (h2 : z < 32768) :
    toSigned16 (toUnsigned16 z) = z := by
  unfold toSigned16 toUnsigned16
  split <;> omega

theorem toUnsigned16_lt (z : ℤ) : toUnsigned16 z < 2 ^ 16 := by
  unfold toUnsigned16
  omega

/-- Claim C3: for every 20-byte EEG packet, the decoder reads the first
16 bits as the unsigned sequence index and each of the 12 subsequent
bit-packed 12-bit unsigned raw values raw (0..4095) as the calibrated
value EEG_SCALE_FACTOR * (raw - 2048) microvolts, shown as a round trip
through the documented packet layout. -/
theorem eeg_decode_roundtrip (seq : Nat) (raws : List Nat) (hseq : seq < 65536)
    (hlen : raws.length = 12) (hr : ∀ r ∈ raws, r < 4096) :
    parse_eeg_packet (eegEncode seq raws) =
      Except.ok (seq, raws.map (fun r => EEG_SCALE_FACTOR * ((r : ℚ) - 2048))) := by
  have hr12 : ∀ r ∈ raws, r < 2 ^ 12 := by
    intro r hrm
    have := hr r hrm
    omega
  have hP : packFields 12 raws < 2 ^ 144 := by
    have h := packFields_lt 12 raws hr12
    rw [hlen] at h
    exact h
  have hpos : 0 < (2 : Nat) ^ 144 := by positivity
  have hN : seq * 2 ^ 144 + packFields 12 raws < 256 ^ 20 := by
    have h1 : seq * 2 ^ 144 + packFields 12 raws < (seq + 1) * 2 ^ 144 := by
      have : (seq + 1) * 2 ^ 144 = seq * 2 ^ 144 + 2 ^ 144 := by ring
      omega
    have h2 : (seq + 1) * 2 ^ 144 ≤ 65536 * 2 ^ 144 := Nat.mul_le_mul (by omega) le_rfl
    have h3 : (65536 : Nat) * 2 ^ 144 = 256 ^ 20 := by norm_num
    omega
  have hb : bytesToNat (natToBytes (seq * 2 ^ 144 + packFields 12 raws) 20)
      = seq * 2 ^ 144 + packFields 12 raws := by
    rw [bytesToNat_natToBytes]
    exact Nat.mod_eq_of_lt hN
  have hdivN : (seq * 2 ^ 144 + packFields 12 raws) / 2 ^ 144 = seq := by
    rw [Nat.add_comm, Nat.add_mul_div_right _ _ hpos, Nat.div_eq_of_lt hP, Nat.zero_add]
  have hmodN : (seq * 2 ^ 144 + packFields 12 raws) % 2 ^ 144 = packFields 12 raws := by
    rw [Nat.add_comm, Nat.mul_comm, Nat.add_mul_mod_self_left, Nat.mod_eq_of_lt hP]
  have hup : unpackFields 12 (packFields 12 raws) 12 = raws := by
    have h := unpackFields_packFields 12 raws hr12
    rw [hlen] at h
    exact h
  simp only [parse_eeg_packet, eegEncode, length_natToBytes, ne_eq, not_true_eq_false,
    if_false, hb, hdivN, hmodN, hup]

/-- Claim C4: for every 20-byte ACC or GYRO packet whose 9 signed 16-bit
raw values after the sequence index are [x1,x2,x3,y1,y2,y3,z1,z2,z3]
(column-major), the decoder returns the 3 row-samples
[[x1,y1,z1],[x2,y2,z2],[x3,y3,z3]], scaled by ACC_SCALE_FACTOR (g) resp.
GYRO_SCALE_FACTOR (deg/s). -/
theorem imu_decode_roundtrip (seq : Nat) (x1 x2 x3 y1 y2 y3 z1 z2 z3 : ℤ) (hseq : seq < 65536)
    (hb : ∀ v ∈ [x1, x2, x3, y1, y2, y3, z1, z2, z3], -32768 ≤ v ∧ v < 32768) :
    parse_acc_packet (imuEncode seq [x1, x2, x3, y1, y2, y3, z1, z2, z3]) =
      Except.ok (seq,
        [[(x1 : ℚ) * ACC_SCALE_FACTOR, (y1 : ℚ) * ACC_SCALE_FACTOR, (z1 : ℚ) * ACC_SCALE_FACTOR],
         [(x2 : ℚ) * ACC_SCALE_FACTOR, (y2 : ℚ) * ACC_SCALE_FACTOR, (z2 : ℚ) * ACC_SCALE_FACTOR],
         [(x3 : ℚ) * ACC_SCALE_FACTOR, (y3 : ℚ) * ACC_SCALE_FACTOR, (z3 : ℚ) * ACC_SCALE_FACTOR]])
    ∧ parse_gyro_packet (imuEncode seq [x1, x2, x3, y1, y2, y3, z1, z2, z3]) =
      Except.ok (seq,
        [[(x1 : ℚ) * GYRO_SCALE_FACTOR, (y1 : ℚ) * GYRO_SCALE_FACTOR, (z1 : ℚ) * GYRO_SCALE_FACTOR],
         [(x2 : ℚ) * GYRO_SCALE_FACTOR, (y2 : ℚ) * GYRO_SCALE_FACTOR, (z2 : ℚ) * GYRO_SCALE_FACTOR],
         [(x3 : ℚ) * GYRO_SCALE_FACTOR, (y3 : ℚ) * GYRO_SCALE_FACTOR, (z3 : ℚ) * GYRO_SCALE_FACTOR]]) := by
  have hus : ∀ u ∈ List.map toUnsigned16 [x1, x2, x3, y1, y2, y3, z1, z2, z3], u < 2 ^ 16 := by
    intro u hu
    obtain ⟨v, hv, rfl⟩ := List.mem_map.mp hu
    exact toUnsigned16_lt v
  have hlen9 : (List.map toUnsigned16 [x1, x2, x3, y1, y2, y3, z1, z2, z3]).length = 9 := by simp
  have hP : packFields 16 (List.map toUnsigned16 [x1, x2, x3, y1, y2, y3, z1, z2, z3]) < 2 ^ 144 := by
    have h := packFields_lt 16 _ hus
    rw [hlen9] at h
    exact h
  have hpos : 0 < (2 : Nat) ^ 144 := by positivity
  have hN : seq * 2 ^ 144 + packFields 16 (List.map toUnsigned16 [x1, x2, x3, y1, y2, y3, z1, z2, z3]) < 256 ^ 20 := by
    have h1 : (seq + 1) * 2 ^ 144 = seq * 2 ^ 144 + 2 ^ 144 := by ring
    have h2 : (seq + 1) * 2 ^ 144 ≤ 65536 * 2 ^ 144 := Nat.mul_le_mul (by omega) le_rfl
    have h3 : (65536 : Nat) * 2 ^ 144 = 256 ^ 20 := by norm_num
    omega
  have hby : bytesToNat (natToBytes (seq * 2 ^ 144 + packFields 16 (List.map toUnsigned16 [x1, x2, x3, y1, y2, y3, z1, z2, z3])) 20)
      = seq * 2 ^ 144 + packFields 16 (List.map toUnsigned16 [x1, x2, x3, y1, y2, y3, z1, z2, z3]) := by
    rw [bytesToNat_natToBytes]
    exact Nat.mod_eq_of_lt hN
  have hdivN : (seq * 2 ^ 144 + packFields 16 (List.map toUnsigned16 [x1, x2, x3, y1, y2, y3, z1, z2, z3])) / 2 ^ 144 = seq := by
    rw [Nat.add_comm, Nat.add_mul_div_right _ _ hpos, Nat.div_eq_of_lt hP, Nat.zero_add]
  have hmodN : (seq * 2 ^ 144 + packFields 16 (List.map toUnsigned16 [x1, x2, x3, y1, y2, y3, z1, z2, z3])) % 2 ^ 144
      = packFields 16 (List.map toUnsigned16 [x1, x2, x3, y1, y2, y3, z1, z2, z3]) := by
    rw [Nat.add_comm, Nat.mul_comm, Nat.add_mul_mod_self_left, Nat.mod_eq_of_lt hP]
  have hup : unpackFields 16 (packFields 16 (List.map toUnsigned16 [x1, x2, x3, y1, y2, y3, z1, z2, z3])) 9
      = List.map toUnsigned16 [x1, x2, x3, y1, y2, y3, z1, z2, z3] := by
    have h := unpackFields_packFields 16 _ hus
    rw [hlen9] at h
    exact h
  have hback : List.map toSigned16 (List.map toUnsigned16 [x1, x2, x3, y1, y2, y3, z1, z2, z3])
      = [x1, x2, x3, y1, y2, y3, z1, z2, z3] := by
    rw [List.map_map]
    have hcongr : ∀ v ∈ [x1, x2, x3, y1, y2, y3, z1, z2, z3], (toSigned16 ∘ toUnsigned16) v = id v := by
      intro v hv
      obtain ⟨hv1, hv2⟩ := hb v hv
      simpa using toSigned16_toUnsigned16 v hv1 hv2
    rw [List.map_congr_left hcongr, List.map_id]
  constructor
  · simp only [parse_acc_packet, imuEncode, length_natToBytes, ne_eq, not_true_eq_false,
      if_false, hby, hdivN, hmodN, hup, hback]
    rfl
  · simp only [parse_gyro_packet, imuEncode, length_natToBytes, ne_eq, not_true_eq_false,
      if_false, hby, hdivN, hmodN, hup, hback]
    rfl

/-- Claim C8: for every modality decoder and every payload whose length
is not exactly 20 bytes, the decoder raises the malformed-packet
ValueError (modelled as Except.error), and the failed EEG callback leaves
the synchronizer state untouched: no PendingFrame is created or altered
and no frame is emitted. -/
theorem malformed_length_rejected (data : List Nat) (h : data.length ≠ 20) :
    parse_eeg_packet data
        = Except.error ("EEG packet must be 20 bytes, got " ++ toString data.length)
    ∧ parse_acc_packet data
        = Except.error ("Accelerometer packet must be 20 bytes, got " ++ toString data.length)
    ∧ parse_gyro_packet data
        = Except.error ("Gyroscope packet must be 20 bytes, got " ++ toString data.length)
    ∧ ∀ (st : SyncState) (ch : Channel) (now : ℚ), onEegNotification st ch data now = st := by
  refine ⟨?_, ?_, ?_, ?_⟩
  · simp [parse_eeg_packet, h]
  · simp [parse_acc_packet, h]
  · simp [parse_gyro_packet, h]
  · intro st ch now
    simp [onEegNotification, parse_eeg_packet, h]

/-- Claim C7: once armed with a reference event, a sample with timestamp
t is written iff t - play_lsl ≥ -pre_roll (the boundary is admitted);
a rejected sample produces no row and leaves the sample index unchanged
(dropped silently). -/
theorem pre_roll_admission (play pre : ℚ) (idx : Nat) (sample : List ℚ) (t : ℚ) :
    ((recordSample play pre idx sample t).1.isSome ↔ t - play ≥ -pre)
    ∧ (t - play < -pre → recordSample play pre idx sample t = (none, idx))
    ∧ (t - play ≥ -pre → recordSample play pre idx sample t
        = (some ((idx : ℚ) :: t :: (t - play) :: sample), idx + 1)) := by
  unfold recordSample
  refine ⟨?_, ?_, ?_⟩
  · constructor
    · intro hs
      by_contra hlt
      simp [if_pos (by linarith : t - play < -pre)] at hs
    · intro hge
      simp [if_neg (by linarith : ¬ t - play < -pre)]
  · intro hlt
    simp [if_pos hlt]
  · intro hge
    simp [if_neg (by linarith : ¬ t - play < -pre)]

/-- Claim C9: disconnect and the streamer stop are idempotent: invoking
MuseBLEClient.disconnect on an already-disconnected link is a no-op that
releases nothing, and a second disconnect or a second
CustomMuseStreamer.stop releases no resource a second time and leaves the
state unchanged. -/
theorem idempotent_teardown :
    (∀ st : BLEState, st.connected = false → bleDisconnect st = (st, []))
    ∧ (∀ st : BLEState, bleDisconnect (bleDisconnect st).1 = ((bleDisconnect st).1, []))
    ∧ (∀ st : StreamerState, streamerStop (streamerStop st).1 = ((streamerStop st).1, [])) := by
  refine ⟨?_, ?_, ?_⟩
  · intro st h
    simp [bleDisconnect, h]
  · intro st
    rcases hc : st.connected with _ | _ <;> rcases hh : st.hasClient with _ | _ <;>
      simp [bleDisconnect, hc, hh]
  · intro st
    rcases hr : st.running with _ | _ <;> simp [streamerStop, hr]

theorem enumPush_length (T step : ℚ) : ∀ (l : List (List ℚ)) (i0 : Nat),
    (enumPush T step l i0).length = l.length := by
  intro l
  induction l with
  | nil => intro i0; rfl
  | cons s tl ih => intro i0; simp [enumPush, ih]

theorem enumPush_get (T step : ℚ) :
    ∀ (l : List (List ℚ)) (i0 k : Nat) (h : k < (enumPush T step l i0).length),
      (enumPush T step l i0).get ⟨k, h⟩
        = (l.getD k [], T + ((i0 + k : Nat) : ℚ) * step) := by
  intro l
  induction l with
  | nil => intro i0 k h; simp [enumPush] at h
  | cons s tl ih =>
    intro i0 k h
    cases k with
    | zero => simp [enumPush]
    | succ k2 =>
      have h2 : k2 < (enumPush T step tl (i0 + 1)).length := by
        simp only [enumPush, List.length_cons] at h
        omega
      have harith : i0 + 1 + k2 = i0 + (k2 + 1) := by omega
      have hrec := ih (i0 + 1) k2 h2
      rw [harith] at hrec
      simp only [enumPush, List.get_cons_succ, hrec, List.getD_cons_succ]

/-- Claim C6: for a block of N samples with reference timestamp T pushed
through push_eeg_chunk at the nominal 256 Hz rate, sample k (0-indexed)
receives timestamp T + k * (1/256); in particular for N = 1 the sole
sample receives T unmodified. -/
theorem timestamp_interpolation (samples : List (List ℚ)) (T : ℚ) (hne : samples ≠ []) :
    ∃ out, push_eeg_chunk true samples (some T) 0 = Except.ok out ∧
      out.length = samples.length ∧
      ∀ k, ∀ h : k < out.length,
        out.get ⟨k, h⟩ = (samples.getD k [], T + (k : ℚ) * (1 / EEG_SAMPLE_RATE)) := by
  by_cases hlen : samples.length > 1
  · refine ⟨enumPush T (1 / EEG_SAMPLE_RATE) samples 0, ?_, enumPush_length _ _ _ _, ?_⟩
    · simp [push_eeg_chunk, if_pos hlen]
    · intro k h
      have := enumPush_get T (1 / EEG_SAMPLE_RATE) samples 0 k h
      simpa using this
  · obtain ⟨s, tl, rfl⟩ : ∃ s tl, samples = s :: tl := by
      cases samples with
      | nil => exact absurd rfl hne
      | cons s tl => exact ⟨s, tl, rfl⟩
    have htl : tl = [] := by
      cases tl with
      | nil => rfl
      | cons a b => simp at hlen
    subst htl
    refine ⟨[(s, T)], ?_, rfl, ?_⟩
    · simp [push_eeg_chunk]
    · intro k h
      have hk : k = 0 := by simpa using h
      subst hk
      simp

theorem lookupPending_setChannel (buf : List (Nat × Pending)) (i : Nat) (ch : Channel)
    (s : List ℚ) :
    lookupPending (setChannel buf i ch s) i
      = (lookupPending buf i).map (fun p => p.set ch s) := by
  induction buf with
  | nil => rfl
  | cons q rest ih =>
    by_cases hq : q.1 = i
    · simp [setChannel, lookupPending, hq]
    · simp only [setChannel, List.map_cons, if_neg hq, lookupPending]
      exact ih

theorem numChannels_set_four (p : Pending) (ch : Channel) (s : List ℚ)
    (h4 : p.numChannels = 4) : (p.set ch s).numChannels = 4 := by
  rcases p with ⟨o1, o2, o3, o4⟩
  cases ch <;> cases o1 <;> cases o2 <;> cases o3 <;> cases o4 <;>
    simp_all [Pending.numChannels, Pending.set, List.countP_cons, List.countP_nil]

/-- Claim C10: if the pending entry for sequence index i already has all
4 channels present (as happens after a CompletedFrame for i was emitted,
since completion does not delete the entry), then one further EEG sample
for i on any channel makes the synchronizer emit a second CompletedFrame
for the same index i. -/
theorem duplicate_emission_on_extra_sample (st : SyncState) (ch : Channel) (i : Nat) (s : List ℚ) (now : ℚ)
    (p : Pending) (hp : lookupPending st.buffer i = some p) (h4 : p.numChannels = 4) :
    ∃ fr ts, (processEeg st ch i s now).emitted = st.emitted ++ [(i, fr, ts)] := by
  have hins : lookupPending (insertStage st i ch s) i = some (p.set ch s) := by
    unfold insertStage
    rw [if_pos (by rw [hp]; rfl)]
    rw [lookupPending_setChannel, hp]
    rfl
  have h4b : (p.set ch s).numChannels = 4 := numChannels_set_four p ch s h4
  simp only [processEeg, hins, Option.getD_some, h4b, if_true]
  exact ⟨_, _, rfl⟩

/-- Claim C2 (amended): when the sample that completes all 4 channels of
index i arrives (and the table is small enough that the retention cleanup
does not fire), a CompletedFrame for i is emitted, but the PendingFrame
for i is NOT removed from the table on completion; it remains until the
retention eviction removes it. -/
theorem completion_emits_but_retains_pending (st : SyncState) (ch : Channel) (i : Nat) (s : List ℚ) (now : ℚ)
    (h4 : ((lookupPending (insertStage st i ch s) i).getD Pending.empty).numChannels = 4)
    (hsmall : (insertStage st i ch s).length ≤ 10) :
    (∃ fr ts, (processEeg st ch i s now).emitted = st.emitted ++ [(i, fr, ts)])
    ∧ (lookupPending (processEeg st ch i s now).buffer i).isSome = true := by
  have hnoev : evictOld (insertStage st i ch s) (timesStage st i now)
      = (insertStage st i ch s, timesStage st i now) := by
    unfold evictOld
    rw [if_neg (by omega)]
  have hsome : (lookupPending (insertStage st i ch s) i).isSome = true := by
    rcases hcase : lookupPending (insertStage st i ch s) i with _ | q
    · rw [hcase] at h4
      simp [Pending.empty, Pending.numChannels] at h4
    · rfl
  simp only [processEeg, h4, if_true, hnoev]
  exact ⟨⟨_, _, rfl⟩, hsome⟩

theorem bufKeys_filter_notmem (buf : List (Nat × Pending)) (oldest : List Nat) :
    bufKeys (buf.filter (fun q => decide (q.1 ∉ oldest)))
      = (bufKeys buf).filter (fun k => decide (k ∉ oldest)) := by
  induction buf with
  | nil => rfl
  | cons q rest ih =>
    rcases hpq : decide (q.1 ∉ oldest) with _ | _ <;>
      simp only [List.filter, hpq, bufKeys, List.map_cons] <;>
      simpa [bufKeys] using ih

theorem length_filter_notmem (buf : List (Nat × Pending)) (oldest : List Nat) :
    (buf.filter (fun q => decide (q.1 ∉ oldest))).length
      = ((bufKeys buf).filter (fun k => decide (k ∉ oldest))).length := by
  have h := bufKeys_filter_notmem buf oldest
  have h2 : (bufKeys (buf.filter (fun q => decide (q.1 ∉ oldest)))).length
      = ((bufKeys buf).filter (fun k => decide (k ∉ oldest))).length := by rw [h]
  simpa [bufKeys] using h2

theorem filter_notmem_sorted_le (keys : List Nat) (m : Nat) :
    ((List.insertionSort (fun a b => a ≤ b) keys).filter
        (fun k => decide (k ∉ (List.insertionSort (fun a b => a ≤ b) keys).take m))).length
      ≤ keys.length - m := by
  set sorted := List.insertionSort (fun a b => a ≤ b) keys with hsorteddef
  set oldest := sorted.take m with holdestdef
  have hsplit : oldest ++ sorted.drop m = sorted := List.take_append_drop _ _
  have hfilt : sorted.filter (fun k => decide (k ∉ oldest))
      = (oldest ++ sorted.drop m).filter (fun k => decide (k ∉ oldest)) := by rw [hsplit]
  rw [hfilt, List.filter_append]
  have hnil : oldest.filter (fun k => decide (k ∉ oldest)) = [] := by
    rw [List.filter_eq_nil_iff]
    intro a ha
    simp [ha]
  rw [hnil, List.nil_append]
  have hle := List.length_filter_le (fun k => decide (k ∉ oldest)) (sorted.drop m)
  have hdroplen : (sorted.drop m).length = sorted.length - m := List.length_drop _ _
  have hsortlen : sorted.length = keys.length := by
    rw [hsorteddef, List.length_insertionSort]
  omega

theorem evictOld_length_le (buf : List (Nat × Pending)) (ts : List (Nat × ℚ)) :
    (evictOld buf ts).1.length ≤ 10 := by
  unfold evictOld
  by_cases hgt : buf.length > 10
  · rw [if_pos hgt]
    show (buf.filter (fun q => decide (q.1 ∉
        (List.insertionSort (fun a b => a ≤ b) (bufKeys buf)).take (buf.length - 10)))).length ≤ 10
    rw [length_filter_notmem]
    have hperm : ((bufKeys buf).filter (fun k => decide (k ∉
        (List.insertionSort (fun a b => a ≤ b) (bufKeys buf)).take (buf.length - 10)))).length
        = ((List.insertionSort (fun a b => a ≤ b) (bufKeys buf)).filter (fun k => decide (k ∉
            (List.insertionSort (fun a b => a ≤ b) (bufKeys buf)).take (buf.length - 10)))).length :=
      ((List.Perm.filter _ (List.perm_insertionSort _ (bufKeys buf))).length_eq).symm
    rw [hperm]
    have hle := filter_notmem_sorted_le (bufKeys buf) (buf.length - 10)
    have hkl : (bufKeys buf).length = buf.length := by simp [bufKeys]
    omega
  · rw [if_neg hgt]
    show buf.length ≤ 10
    omega

theorem evictOld_keeps_greatest (buf : List (Nat × Pending)) (ts : List (Nat × ℚ)) :
    ∀ k ∈ bufKeys (evictOld buf ts).1, ∀ k2 ∈ bufKeys buf,
      k2 ∉ bufKeys (evictOld buf ts).1 → k2 ≤ k := by
  unfold evictOld
  by_cases hgt : buf.length > 10
  · rw [if_pos hgt]
    intro k hk k2 hk2 hk2out
    simp only at hk hk2out
    rw [bufKeys_filter_notmem] at hk hk2out
    set keys := bufKeys buf with hkeysdef
    set sorted := List.insertionSort (fun a b => a ≤ b) keys with hsorteddef
    set oldest := sorted.take (buf.length - 10) with holdestdef
    obtain ⟨hkmem, hkp⟩ := List.mem_filter.mp hk
    have hknotold : k ∉ oldest := by simpa using hkp
    have hk2old : k2 ∈ oldest := by
      by_contra hno
      exact hk2out (List.mem_filter.mpr ⟨hk2, by simpa using hno⟩)
    have hperm := List.perm_insertionSort (fun a b => a ≤ b) keys
    have hksorted : k ∈ sorted := hperm.mem_iff.mpr hkmem
    have hsplit : oldest ++ sorted.drop (buf.length - 10) = sorted := List.take_append_drop _ _
    have hkdrop : k ∈ sorted.drop (buf.length - 10) := by
      have hx := hksorted
      rw [← hsplit] at hx
      rcases List.mem_append.mp hx with hcase | hcase
      · exact absurd hcase hknotold
      · exact hcase
    have hsort : List.Sorted (fun a b => a ≤ b) sorted := List.sorted_insertionSort _ keys
    have hpw : List.Pairwise (fun a b => a ≤ b) (oldest ++ sorted.drop (buf.length - 10)) := by
      rw [hsplit]
      exact hsort
    exact (List.pairwise_append.mp hpw).2.2 k2 hk2old k hkdrop
  · rw [if_neg hgt]
    intro k hk k2 hk2 hk2out
    exact absurd hk2 hk2out

/-- Claim C1 (amended): eviction runs only on insertions that complete a
frame.  After any insertion that completes a frame, at most 10 distinct
PendingFrame keys remain, and every retained key is numerically at least
every evicted key (the survivors are the greatest keys).  Insertions that
do not complete a frame evict nothing (see the counterexample). -/
theorem eviction_only_on_completion_bounds (st : SyncState) (ch : Channel) (i : Nat) (s : List ℚ) (now : ℚ)
    (h4 : ((lookupPending (insertStage st i ch s) i).getD Pending.empty).numChannels = 4) :
    (processEeg st ch i s now).buffer.length ≤ 10
    ∧ ∀ k ∈ bufKeys (processEeg st ch i s now).buffer,
        ∀ k2 ∈ bufKeys (insertStage st i ch s),
          k2 ∉ bufKeys (processEeg st ch i s now).buffer → k2 ≤ k := by
  have hbuf : (processEeg st ch i s now).buffer
      = (evictOld (insertStage st i ch s) (timesStage st i now)).1 := by
    simp only [processEeg, h4, if_true]
  rw [hbuf]
  exact ⟨evictOld_length_le _ _, evictOld_keeps_greatest _ _⟩

theorem numChannels_empty_set (ch : Channel) (s : List ℚ) :
    (Pending.empty.set ch s).numChannels = 1 := by
  cases ch <;> rfl

theorem processEeg_fresh (ch : Channel) (i : Nat) (s : List ℚ) (now : ℚ) :
    processEeg initState ch i s now
      = ⟨[(i, Pending.empty.set ch s)], [(i, now)], []⟩ := by
  have h1 : (Pending.empty.set ch s).numChannels = 1 := numChannels_empty_set ch s
  simp [processEeg, insertStage, timesStage, lookupPending, setChannel, initState, h1]

theorem processEeg_same_partial (i : Nat) (p : Pending) (t1 : ℚ) (ch : Channel) (s : List ℚ)
    (now : ℚ) (h : ¬ (p.set ch s).numChannels = 4) :
    processEeg ⟨[(i, p)], [(i, t1)], []⟩ ch i s now = ⟨[(i, p.set ch s)], [(i, t1)], []⟩ := by
  simp [processEeg, insertStage, timesStage, lookupPending, setChannel, h]

theorem processEeg_same_complete (i : Nat) (p : Pending) (t1 : ℚ) (ch : Channel) (s : List ℚ)
    (now : ℚ) (h : (p.set ch s).numChannels = 4) :
    processEeg ⟨[(i, p)], [(i, t1)], []⟩ ch i s now
      = ⟨[(i, p.set ch s)], [(i, t1)],
         [(i, columnStack4 ((p.set ch s).tp9.getD []) ((p.set ch s).af7.getD [])
            ((p.set ch s).af8.getD []) ((p.set ch s).tp10.getD []), t1)]⟩ := by
  simp [processEeg, insertStage, timesStage, lookupPending, lookupTime, setChannel, evictOld, h]

set_option maxHeartbeats 1000000 in
/-- Claim C5: feeding the 4 EEG channel samples for sequence index i in
any of the 24 possible arrival orders yields exactly one CompletedFrame
for i, with each channel attributed to its own column of the
column-stacked frame regardless of arrival order, and with the frame
reference timestamp equal to the clock read taken when the first of the
4 samples arrived. -/
theorem frame_completion_any_order (i : Nat) (f : Channel → List ℚ) (a b c d : Channel) (t1 t2 t3 t4 : ℚ)
    (hab : a ≠ b) (hac : a ≠ c) (had : a ≠ d) (hbc : b ≠ c) (hbd : b ≠ d) (hcd : c ≠ d) :
    processEeg (processEeg (processEeg (processEeg initState a i (f a) t1) b i (f b) t2)
        c i (f c) t3) d i (f d) t4 =
      { buffer := [(i, ⟨some (f Channel.TP9), some (f Channel.AF7), some (f Channel.AF8),
          some (f Channel.TP10)⟩)],
        timestamps := [(i, t1)],
        emitted := [(i, columnStack4 (f Channel.TP9) (f Channel.AF7) (f Channel.AF8)
          (f Channel.TP10), t1)] } := by
  cases a <;> cases b <;> cases c <;> cases d <;>
    first
      | exact absurd rfl hab
      | exact absurd rfl hac
      | exact absurd rfl had
      | exact absurd rfl hbc
      | exact absurd rfl hbd
      | exact absurd rfl hcd
      | (rw [processEeg_fresh, processEeg_same_partial, processEeg_same_partial,
          processEeg_same_complete] <;>
          first
            | rfl
            | simp [Pending.set, Pending.empty, Pending.numChannels, List.countP_cons,
                List.countP_nil])

set_option maxRecDepth 40000 in
/-- Counterexample to C1 as stated: feeding 15 distinct sequence indices,
each missing one channel (so no frame ever completes), leaves 15
PendingFrames in the table, not at most 10 — the cleanup runs only inside
the frame-completion branch. -/
theorem retention_unbounded_counterexample :
    c1runState.buffer.length = 15 ∧ ¬ c1runState.buffer.length ≤ 10 := by
  constructor
  · decide
  · decide

/-- Counterexample to C2 as stated: after feeding all 4 channels of
index 0, exactly one frame is emitted but the PendingFrame for 0 is still
present in the table — it is not destroyed on completion. -/
theorem completion_does_not_remove_counterexample :
    c2runState.emitted.length = 1 ∧ (lookupPending c2runState.buffer 0).isSome = true :=
  ⟨rfl, rfl⟩

/-- Witness for C3: a packet with sequence index 7 and all twelve raw
samples equal to 2048 decodes to exactly 0.0 microvolts in every slot. -/
theorem eeg_decode_roundtrip_witness :
    parse_eeg_packet (eegEncode 7 (List.replicate 12 2048))
      = Except.ok (7, List.replicate 12 (0 : ℚ)) := by
  have h := eeg_decode_roundtrip 7 (List.replicate 12 2048) (by decide) (by decide) (by decide)
  rw [h]
  simp [List.map_replicate]

theorem imu_decode_roundtrip_witness :
    parse_acc_packet (imuEncode 2 [16384, -32768, 32767, 0, 1, -2, 100, -100, 5])
      = Except.ok (2,
        [[((16384 : ℤ) : ℚ) * ACC_SCALE_FACTOR, ((0 : ℤ) : ℚ) * ACC_SCALE_FACTOR,
          ((100 : ℤ) : ℚ) * ACC_SCALE_FACTOR],
         [((-32768 : ℤ) : ℚ) * ACC_SCALE_FACTOR, ((1 : ℤ) : ℚ) * ACC_SCALE_FACTOR,
          ((-100 : ℤ) : ℚ) * ACC_SCALE_FACTOR],
         [((32767 : ℤ) : ℚ) * ACC_SCALE_FACTOR, ((-2 : ℤ) : ℚ) * ACC_SCALE_FACTOR,
          ((5 : ℤ) : ℚ) * ACC_SCALE_FACTOR]])
    ∧ parse_gyro_packet (imuEncode 2 [16384, -32768, 32767, 0, 1, -2, 100, -100, 5])
      = Except.ok (2,
        [[((16384 : ℤ) : ℚ) * GYRO_SCALE_FACTOR, ((0 : ℤ) : ℚ) * GYRO_SCALE_FACTOR,
          ((100 : ℤ) : ℚ) * GYRO_SCALE_FACTOR],
         [((-32768 : ℤ) : ℚ) * GYRO_SCALE_FACTOR, ((1 : ℤ) : ℚ) * GYRO_SCALE_FACTOR,
          ((-100 : ℤ) : ℚ) * GYRO_SCALE_FACTOR],
         [((32767 : ℤ) : ℚ) * GYRO_SCALE_FACTOR, ((-2 : ℤ) : ℚ) * GYRO_SCALE_FACTOR,
          ((5 : ℤ) : ℚ) * GYRO_SCALE_FACTOR]]) := by
  exact imu_decode_roundtrip 2 16384 (-32768) 32767 0 1 (-2) 100 (-100) 5 (by decide) (by decide)

theorem frame_completion_any_order_witness :
    processEeg (processEeg (processEeg (processEeg initState Channel.TP10 3
        (chSample Channel.TP10) 1) Channel.AF7 3 (chSample Channel.AF7) 2)
        Channel.TP9 3 (chSample Channel.TP9) 5) Channel.AF8 3 (chSample Channel.AF8) 7 =
      { buffer := [(3, ⟨some (chSample Channel.TP9), some (chSample Channel.AF7),
          some (chSample Channel.AF8), some (chSample Channel.TP10)⟩)],
        timestamps := [(3, 1)],
        emitted := [(3, columnStack4 (chSample Channel.TP9) (chSample Channel.AF7)
          (chSample Channel.AF8) (chSample Channel.TP10), 1)] } :=
  frame_completion_any_order 3 chSample Channel.TP10 Channel.AF7 Channel.TP9 Channel.AF8 1 2 5 7
    (by decide) (by decide) (by decide) (by decide) (by decide) (by decide)

theorem timestamp_interpolation_witness :
    ∃ out, push_eeg_chunk true (List.replicate 12 [(0 : ℚ)]) (some 5) 0 = Except.ok out ∧
      out.length = (List.replicate 12 [(0 : ℚ)]).length ∧
      ∀ k, ∀ h : k < out.length,
        out.get ⟨k, h⟩ = ((List.replicate 12 [(0 : ℚ)]).getD k [],
          5 + (k : ℚ) * (1 / EEG_SAMPLE_RATE)) :=
  timestamp_interpolation (List.replicate 12 [(0 : ℚ)]) 5 (by decide)

theorem pre_roll_admission_witness :
    recordSample 100 2 0 [] (195 / 2) = (none, 0)
    ∧ (recordSample 100 2 0 [] (197 / 2)).1.isSome = true :=
  ⟨(pre_roll_admission 100 2 0 [] (195 / 2)).2.1 (by norm_num),
   ((pre_roll_admission 100 2 0 [] (197 / 2)).1).mpr (by norm_num)⟩

theorem malformed_length_rejected_witness :
    parse_eeg_packet badPacket
        = Except.error ("EEG packet must be 20 bytes, got " ++ toString badPacket.length)
    ∧ onEegNotification initState Channel.TP9 badPacket 0 = initState := by
  have h := malformed_length_rejected badPacket (by decide)
  exact ⟨h.1, h.2.2.2 initState Channel.TP9 0⟩

theorem idempotent_teardown_witness :
    bleDisconnect disconnectedBLE = (disconnectedBLE, [])
    ∧ streamerStop (streamerStop runningStreamer).1 = ((streamerStop runningStreamer).1, []) :=
  ⟨idempotent_teardown.1 disconnectedBLE rfl, idempotent_teardown.2.2 runningStreamer⟩

theorem duplicate_emission_on_extra_sample_witness :
    ∃ fr ts, (processEeg dupState Channel.AF7 5 (List.replicate 12 1) 9).emitted
      = dupState.emitted ++ [(5, fr, ts)] :=
  duplicate_emission_on_extra_sample dupState Channel.AF7 5 (List.replicate 12 1) 9 fullPending rfl rfl

theorem completion_emits_but_retains_pending_witness :
    (∃ fr ts, (processEeg threeFilledState Channel.TP10 0 zeroSamples 4).emitted
        = threeFilledState.emitted ++ [(0, fr, ts)])
    ∧ (lookupPending (processEeg threeFilledState Channel.TP10 0 zeroSamples 4).buffer 0).isSome
        = true :=
  completion_emits_but_retains_pending threeFilledState Channel.TP10 0 zeroSamples 4 (by decide) (by decide)

theorem eviction_only_on_completion_bounds_witness :
    (processEeg threeFilledState Channel.TP10 0 zeroSamples 4).buffer.length ≤ 10 :=
  (eviction_only_on_completion_bounds threeFilledState Channel.TP10 0 zeroSamples 4 (by decide)).1

end Muse
